import Mathlib

/-!
Verification development for the AccessDB-browser-parser repository
(src/index.ts and src/utils.ts). The TypeScript sources are shallowly
embedded: `Uint8Array` becomes `List Nat` (one entry per byte), JS numbers
that hold exact integers become `Nat`/`Int`, JS floating point values that
the claims evaluate are modelled exactly over `Rat`, dictionaries become
association lists, and code that can throw returns `Except String`.

Functions from `parsing-primitives.ts` (not present under src/) are
modelled from the specification and carry a doc comment starting with
"Modelled from the spec:".
-/

set_option maxRecDepth 100000

namespace AccessDB

/-- A decoded cell value as produced by the parser: a string, a number
(JS numbers modelled over `Rat`), or null (`parsedTable` arrays hold
`string | number | boolean | null`; no code path actually produces a
boolean). -/
inductive Value where
  | vStr (s : String)
  | vNum (q : Rat)
  | vNull
deriving DecidableEq, Repr

/-- The `DataType` enum of src/utils.ts (type codes 1,2,3,4,5,6,7,8,9,10,11,12,15,16,18). -/
inductive DataType where
  | Boolean
  | Int8
  | Int16
  | Int32
  | Money
  | Float32
  | Float64
  | DateTime
  | Binary
  | Text
  | OLE
  | Memo
  | GUID
  | Bit96Bytes17
  | Complex
deriving DecidableEq, Repr

/-- Little-endian value of a byte list (first byte is least significant). -/
def leValue : List Nat → Nat
  | [] => 0
  | b :: rest => b + 256 * leValue rest

/-- Read `k` bytes little-endian at offset `off`; `none` models the
RangeError a JS `DataView` read throws when the buffer is too short. -/
def readLE (bs : List Nat) (off k : Nat) : Option Nat :=
  if off + k ≤ bs.length then some (leValue ((bs.drop off).take k)) else none

/-- Reinterpret an unsigned `bits`-bit value as signed (two's complement),
as the signed `DataView` getters do. -/
def toSigned (v : Nat) (bits : Nat) : Int :=
  if v < 2 ^ (bits - 1) then (v : Int) else (v : Int) - 2 ^ bits

/-- The exact rational `n * 2 ^ e`, written through `mkRat` so that kernel
reduction does not depend on the division and power instance chains. -/
def ratScale (n : Int) (e : Int) : Rat :=
  if 0 ≤ e then mkRat (n * 2 ^ e.toNat) 1 else mkRat n (2 ^ (-e).toNat)

/-- Exact rational value of a little-endian IEEE-754 encoding with the
given exponent and mantissa widths: the sign, the biased exponent, and
`(2^manBits + man) * 2^(ex - bias - manBits)` for normal values
(`man * 2^(1 - bias - manBits)` for subnormals). `none` models the
non-finite values (NaN and the infinities), which no claim exercises:
every finite float is exactly a rational and all claim inputs are
finite. -/
def floatFromLE (bs : List Nat) (exBits manBits : Nat) : Option Rat :=
  let u := leValue bs
  let man := u % 2 ^ manBits
  let ex := u / 2 ^ manBits % 2 ^ exBits
  let sign := u / 2 ^ (manBits + exBits)
  if ex = 2 ^ exBits - 1 then none
  else
    let bias : Int := 2 ^ (exBits - 1) - 1
    let mantissa : Int := if ex = 0 then (man : Int) else 2 ^ manBits + man
    let scale : Int := (if ex = 0 then 1 else (ex : Int)) - bias - manBits
    some (ratScale (if sign = 1 then -mantissa else mantissa) scale)

/-- `DataView.getFloat64(0, true)`: 8 bytes, little-endian. -/
def float64FromBytes (bs : List Nat) : Option Rat :=
  if bs.length < 8 then none else floatFromLE (bs.take 8) 11 52

/-- `DataView.getFloat32(0, true)`: 4 bytes, little-endian. -/
def float32FromBytes (bs : List Nat) : Option Rat :=
  if bs.length < 4 then none else floatFromLE (bs.take 4) 8 23

/-- Modelled from the spec: `TextDecoder("utf-8")` is a browser API outside
src/. The model maps each byte to the character of its code point, which
agrees with UTF-8 on ASCII payloads; no claim depends on the exact mapping. -/
def utf8Decode (bs : List Nat) : String :=
  String.mk (bs.map Char.ofNat)

/-- Modelled from the spec: `TextDecoder("windows-1252")`; byte-to-code-point,
which agrees with windows-1252 except on the 0x80-0x9f range; no claim
depends on the exact mapping. -/
def windows1252Decode (bs : List Nat) : String :=
  String.mk (bs.map Char.ofNat)

/-- Modelled from the spec: `TextDecoder("utf-16le")`; consecutive byte pairs
little-endian to code units; no claim depends on the exact mapping. -/
def utf16leDecode : List Nat → String
  | [] => ""
  | [lo] => String.mk [Char.ofNat lo]
  | lo :: hi :: rest => String.mk [Char.ofNat (lo + 256 * hi)] ++ utf16leDecode rest

/-- Lowercase hex digit. -/
def hexDigit (n : Nat) : Char :=
  if n < 10 then Char.ofNat (48 + n) else Char.ofNat (87 + n)

/-- The `("00" + b.toString(16)).slice(-2)` of `uuidStringify`: two lowercase
hex digits (bytes are below 0x100). -/
def hex2 (b : Nat) : String :=
  String.mk [hexDigit (b / 16 % 16), hexDigit (b % 16)]

/-- Concatenated two-digit hex rendering of a byte list. -/
def hexJoin (bs : List Nat) : String :=
  String.join (bs.map hex2)

/-- `uuidStringify` of src/utils.ts: groups 0-4, 4-6, 6-8, 8-10, 10-16 of the
byte-wise hex string, joined with dashes, no byte reordering. -/
def uuidStringify (bs : List Nat) : String :=
  hexJoin (bs.take 4) ++ "-" ++ hexJoin ((bs.drop 4).take 2) ++ "-" ++
    hexJoin ((bs.drop 6).take 2) ++ "-" ++ hexJoin ((bs.drop 8).take 2) ++ "-" ++
    hexJoin ((bs.drop 10).take 6)

/-- Days from civil 1970-01-01 to a Gregorian date (standard civil-from-days
inverse); used to model the JS `Date` for a UTC environment. -/
def daysFromCivil (y m d : Int) : Int :=
  let y2 := y - (if m ≤ 2 then 1 else 0)
  let era := Int.fdiv y2 400
  let yoe := y2 - era * 400
  let doy := (153 * (m + (if m > 2 then -3 else 9)) + 2) / 5 + d - 1
  let doe := yoe * 365 + yoe / 4 - yoe / 100 + doy
  era * 146097 + doe - 719468

/-- Gregorian date (year, month, day) of a day count since 1970-01-01. -/
def civilFromDays (z : Int) : Int × Int × Int :=
  let z2 := z + 719468
  let era := Int.fdiv z2 146097
  let doe := z2 - era * 146097
  let yoe := (doe - doe / 1460 + doe / 36524 - doe / 146096) / 365
  let y := yoe + era * 400
  let doy := doe - (365 * yoe + yoe / 4 - yoe / 100)
  let mp := (5 * doy + 2) / 153
  let d := doy - (153 * mp + 2) / 5 + 1
  let m := mp + (if mp < 10 then 3 else -9)
  (y + (if m ≤ 2 then 1 else 0), m, d)

/-- JS `x % 1` truncates toward zero (remainder has the dividend's sign). -/
def jsTrunc (q : Rat) : Int :=
  Int.tdiv q.num (q.den : Int)

/-- The fractional part `x % 1` of a JS number:
`q - trunc q = (num - trunc q * den) / den`, written through `mkRat` for
kernel reduction. -/
def jsMod1 (q : Rat) : Rat :=
  mkRat (q.num - jsTrunc q * (q.den : Int)) q.den

/-- Multiply an exact rational by a natural number, through `mkRat`. -/
def ratMulNat (q : Rat) (n : Nat) : Rat :=
  mkRat (q.num * (n : Int)) q.den

/-- `Math.floor` on an exact rational, written through `Int.fdiv` so that
kernel reduction does not depend on the `FloorRing` instance chain. -/
def ratFloor (q : Rat) : Int :=
  Int.fdiv q.num (q.den : Int)

/-- Two-digit zero-padded decimal. -/
def pad2 (n : Nat) : String :=
  if n < 10 then "0" ++ toString n else toString n

/-- Four-digit zero-padded decimal (the `toISOString` year for 0-9999). -/
def pad4 (n : Nat) : String :=
  if n < 10 then "000" ++ toString n
  else if n < 100 then "00" ++ toString n
  else if n < 1000 then "0" ++ toString n
  else toString n

/-- The DateTime (type 8) case of `parseType` (src/utils.ts lines 59-72),
modelled for a UTC environment (`getDate`/`setDate`/`setHours` act on local
time, which then coincides with the UTC fields that `toISOString` prints):
start from `new Date("1899-12-30T12:00:00Z")`, add `Math.floor(x)` days,
then `setHours` overwrites hour, minute and second with the floored
fractions (milliseconds stay 0), and render ISO-8601. -/
def dateTimeToString (q : Rat) : String :=
  let daysPassed : Int := ratFloor q
  let frac := jsMod1 q
  let h24 := ratMulNat frac 24
  let hours : Int := ratFloor h24
  let m60 := ratMulNat (jsMod1 h24) 60
  let minutes : Int := ratFloor m60
  let seconds : Int := ratFloor (ratMulNat (jsMod1 m60) 60)
  let baseDay : Int := daysFromCivil 1899 12 30
  let day1 := baseDay + daysPassed
  let total := hours * 3600 + minutes * 60 + seconds
  let day2 := day1 + Int.fdiv total 86400
  let sod := (Int.emod total 86400).toNat
  let c := civilFromDays day2
  pad4 c.1.toNat ++ "-" ++ pad2 c.2.1.toNat ++ "-" ++ pad2 c.2.2.toNat ++ "T" ++
    pad2 (sod / 3600) ++ ":" ++ pad2 (sod / 60 % 60) ++ ":" ++ pad2 (sod % 60) ++ ".000Z"

/-- The length argument `buffer.subarray(0, length)`: `undefined` keeps the
whole buffer. -/
def takeLen (bs : List Nat) : Option Nat → List Nat
  | none => bs
  | some n => bs.take n

/-- The `parseType` function of src/utils.ts. `parsed` starts as the empty
string and the switch overwrites it only for type codes that have a case, so
Boolean (1), OLE (11) and Memo (12) fall through to `""`. Signed integer
reads mirror the `DataView` getters (little-endian, two's complement);
`.error` models the RangeError thrown by an out-of-bounds `DataView` read
(and, for the float cases, stands for the non-finite values the exact
rational model does not carry). -/
def parseType (dataType : DataType) (buffer : List Nat) (length? : Option Nat)
    (version : Nat) : Except String Value :=
  match dataType with
  | .Int8 =>
    match readLE buffer 0 1 with
    | none => .error "RangeError: getInt8"
    | some v => .ok (.vNum (toSigned v 8 : Int))
  | .Int16 =>
    match readLE buffer 0 2 with
    | none => .error "RangeError: getInt16"
    | some v => .ok (.vNum (toSigned v 16 : Int))
  | .Int32 | .Complex =>
    match readLE buffer 0 4 with
    | none => .error "RangeError: getInt32"
    | some v => .ok (.vNum (toSigned v 32 : Int))
  | .Float32 =>
    match float32FromBytes buffer with
    | none => .error "Float32 out of model"
    | some q => .ok (.vNum q)
  | .Float64 =>
    match float64FromBytes buffer with
    | none => .error "Float64 out of model"
    | some q => .ok (.vNum q)
  | .Money =>
    match readLE buffer 0 4, readLE buffer 4 4 with
    | some low, some high =>
      .ok (.vNum (mkRat ((low : Int) + toSigned high 32 * 4294967296) 10000))
    | _, _ => .error "RangeError: Money"
  | .DateTime =>
    match float64FromBytes buffer with
    | none => .error "DateTime out of model"
    | some q => .ok (.vStr (dateTimeToString q))
  | .Binary => .ok (.vStr (utf8Decode (takeLen buffer length?)))
  | .GUID => .ok (.vStr (uuidStringify (buffer.take 16)))
  | .Bit96Bytes17 => .ok (.vStr (utf8Decode (buffer.take 17)))
  | .Text =>
    if version > 3 then
      let first := buffer.get? 0 = some 0xfe ∧ buffer.get? 1 = some 0xff
      let second := buffer.get? 0 = some 0xff ∧ buffer.get? 1 = some 0xfe
      if first ∨ second then .ok (.vStr (windows1252Decode (buffer.drop 2)))
      else .ok (.vStr (utf16leDecode buffer))
    else .ok (.vStr (utf8Decode buffer))
  | .Boolean | .OLE | .Memo => .ok (.vStr "")

/-- Association-list lookup with decidable key equality, mirroring JS object
indexing (`obj[key]`, `undefined` when absent). -/
def alookup {α β : Type} [DecidableEq α] : List (α × β) → α → Option β
  | [], _ => none
  | (k, v) :: rest, a => if k = a then some v else alookup rest a

/-- A column descriptor as used by `AccessTable` (src/index.ts): the zipped
column name, type code, stable column ID, fixed offset, and the
`columnFlags.fixedLength` bit. -/
structure Column where
  colNameStr : String
  type : DataType
  columnID : Nat
  fixedOffset : Nat
  fixedLength : Bool
deriving DecidableEq, Repr

/-- The table-header fields of `tableHeader` that the row decoder reads. -/
structure TableHeaderM where
  columnCount : Nat
  variableColumns : Nat
deriving DecidableEq, Repr

/-- The parsed data-page header: the owner (TDEF page number) and the
record-offset slots. -/
structure DataPageHeader where
  owner : Nat
  recordOffsets : List Nat
deriving DecidableEq, Repr

/-- Modelled from the spec: `parseDataPageHeader` lives in
parsing-primitives.ts, which is absent from src/. Per the spec a data page
carries a header with a `pageOwner` field and a list of record offsets, and
header parsing can fail on malformed pages (src/index.ts wraps it in
try/catch at line 95 and the spec lists "data-page header unparseable" as a
per-row recoverable error). Model layout: the data-page magic `01 01`, one
owner byte, one count byte, then the offsets as 2-byte little-endian values;
parsing fails when the magic is absent or the buffer is too short. -/
def parseDataPageHeader : List Nat → Option DataPageHeader
  | 1 :: 1 :: owner :: n :: rest =>
    if rest.length < 2 * n then none
    else some ⟨owner, (List.range n).map (fun i => rest.getD (2 * i) 0 + 256 * rest.getD (2 * i + 1) 0)⟩
  | _ => none

/-- Outcome of `getOverflowRecord`: a carved byte range, the bare `return`
(record not found), or an exception escaping the method. -/
inductive OvOutcome where
  | found (bs : List Nat)
  | notFound
  | thrown
deriving DecidableEq, Repr

/-- The `getOverflowRecord` method (src/index.ts lines 294-313): slot is the
low 8 bits of the pointer, page number the high bits; absent page gives the
bare `return` (not-found); the `parseDataPageHeader` call is not guarded
here, so a present page whose header fails to parse throws. An out-of-range
slot surviving the `>` check reads `undefined`, whose flag test is false and
which `slice` coerces to 0, modelled by the `none => 0` start. -/
def getOverflowRecord (dataPages : List (Nat × List Nat)) (pageSize : Nat)
    (recordPointer : Nat) : OvOutcome :=
  let recordOffset := recordPointer % 256
  let pageNum := recordPointer / 256
  match alookup dataPages (pageNum * pageSize) with
  | none => .notFound
  | some recordPage =>
    match parseDataPageHeader recordPage with
    | none => .thrown
    | some parsedData =>
      if recordOffset > parsedData.recordOffsets.length then .notFound
      else
        let start :=
          match parsedData.recordOffsets.get? recordOffset with
          | none => 0
          | some s => if s &&& 0x8000 ≠ 0 then s &&& 0xfff else s
        if recordOffset = 0 then .found (recordPage.drop start)
        else
          let e0 := parsedData.recordOffsets.getD (recordOffset - 1) 0
          let e := if e0 &&& 0x8000 ≠ 0 then e0 &&& 0xfff else e0
          .found ((recordPage.drop start).take (e - start))

/-- The struct returned by `parseRelativeObjectMetadataStruct`: field count,
offsets, Jet-3 jump table, total variable-length byte count, and the end
position of the metadata (mutated by the callers, hence `Int`). -/
structure RelMeta where
  variableLengthFieldCount : Nat
  variableLengthFieldOffsets : List Nat
  variableLengthJumpTable : List Nat
  varLenCount : Nat
  relativeMetadataEnd : Int
deriving DecidableEq, Repr

/-- The type of `parseRelativeObjectMetadataStruct`
(buffer, jump-table count or `undefined`, version); `none` models a parse
failure (a construct exception). The function itself lives in
parsing-primitives.ts, absent from src/, so theorems quantify over it and
concrete statements use `primModel`. -/
def RelPrim : Type :=
  List Nat → Option Int → Nat → Option RelMeta

/-- Modelled from the spec: `parseRelativeObjectMetadataStruct` is absent
from src/. Per §4.7 step 4 the trailing metadata read from the reversed
record holds a count of variable fields, a list of offsets measured from
record start, and (Jet 3) a jump table. Model layout over the reversed
record: one count byte, `jumpCnt` jump-table bytes, `count` single-byte
offsets, then one `varLenCount` byte; fails when the buffer is too short. -/
def primModel : RelPrim := fun buf jumpCnt _version =>
  match buf with
  | [] => none
  | cnt :: rest =>
    let jc := (jumpCnt.getD 0).toNat
    if rest.length < jc + cnt + 1 then none
    else some {
      variableLengthFieldCount := cnt
      variableLengthFieldOffsets := (rest.drop jc).take cnt
      variableLengthJumpTable := rest.take jc
      varLenCount := (rest.drop (jc + cnt)).headD 0
      relativeMetadataEnd := ((1 + jc + cnt + 1 : Nat) : Int) }

/-- `Math.floor((originalRecord.length - 1) / 256)` of
`parseDynamicLengthRecordsMetadata` (Jet 3 jump-table count). -/
def jumpCntOf (originalRecord : List Nat) : Int :=
  Int.fdiv ((originalRecord.length : Int) - 1) 256

/-- JS `TypedArray.indexOf`: first index of the byte, `-1` when absent. -/
def indexOfZ (l : List Nat) (b : Nat) : Int :=
  match l.findIdx? (fun x => x == b) with
  | some i => (i : Int)
  | none => -1

/-- JS `TypedArray.slice(i)` with a possibly negative index: negative counts
from the end (clamped at 0), as happens when `indexOf` returned `-1`. -/
def jsSliceFrom (l : List Nat) (i : Int) : List Nat :=
  if i < 0 then l.drop (((l.length : Int) + i).toNat) else l.drop i.toNat

/-- Replace the `relativeMetadataEnd` field (the `+=` mutations of
src/index.ts lines 370 and 394). -/
def withEnd (m : RelMeta) (e : Int) : RelMeta :=
  { m with relativeMetadataEnd := e }

/-- The mismatch recovery of `parseDynamicLengthRecordsMetadata`
(src/index.ts lines 379-400): `tmpBuffer[0]` is the LOW byte of the 2-byte
little-endian encoding of `variableColumns`, and `indexOf` searches for that
single byte. The guard `metadataStart !== 1 && metadataStart < 10` re-parses
from the found index — including the not-found index `-1`, which selects the
final byte via `slice(-1)` — and only the index 1 or indices at least 10
drop the row (`return` of `undefined`, here `.ok none`). -/
def retrySearch (P : RelPrim) (rr2 : List Nat) (jc : Int) (vc : Nat)
    (version : Nat) : Except String (Option RelMeta) :=
  let ms := indexOfZ rr2 (vc % 256)
  if ms ≠ 1 ∧ ms < 10 then
    match P (jsSliceFrom rr2 ms) (some jc) version with
    | none => .error "Failed to parse record metadata"
    | some md1 => .ok (some (withEnd md1 (md1.relativeMetadataEnd + ms)))
  else .ok none

/-- The `parseDynamicLengthRecordsMetadata` method (src/index.ts lines
342-403). Jet 4+: skip the null-table bytes plus one, skip one more leading
zero byte, parse (failures propagate). Jet 3: parse after the null-table
bytes, bump `relativeMetadataEnd`, and on a field-count mismatch run the
`retrySearch` heuristic. `.ok none` is the row-dropping `return` without a
value. -/
def parseDynamicLengthRecordsMetadata (P : RelPrim) (version : Nat)
    (reverseRecord originalRecord : List Nat) (nullTableLength : Nat)
    (variableColumns : Nat) : Except String (Option RelMeta) :=
  if version > 3 then
    let rr := reverseRecord.drop (nullTableLength + 1)
    let rr2 := if rr.length > 1 ∧ rr.get? 0 = some 0 then rr.drop 1 else rr
    match P rr2 none version with
    | none => .error "Failed parsing record"
    | some m => .ok (some m)
  else
    let jc := jumpCntOf originalRecord
    let rr2 := reverseRecord.drop nullTableLength
    match P rr2 (some jc) version with
    | none => .error "Failed parsing record"
    | some md0 =>
      let md1 := withEnd md0 (md0.relativeMetadataEnd + nullTableLength)
      if md1.variableLengthFieldCount ≠ variableColumns then
        retrySearch P rr2 jc variableColumns version
      else .ok (some md1)

/-- The per-table accumulator `this.parsedTable`: column name to the ordered
list of emitted values, in first-assignment order like a JS object. -/
abbrev Acc := List (String × List Value)

/-- Append one value to a column's array, creating the array on first use
(the lazy `if undefined then []` initialisations in src/index.ts). -/
def pushVal : Acc → String → Value → Acc
  | [], n, v => [(n, [v])]
  | (m, vs) :: rest, n, v =>
    if m = n then (m, vs ++ [v]) :: rest else (m, vs) :: pushVal rest n v

/-- Length of a column's array (0 when the column was never pushed). -/
def colLen (acc : Acc) (n : String) : Nat :=
  ((alookup acc n).getD []).length

/-- The configuration an `AccessTable` instance carries: version, page size,
the parser's data-page map, and the column map and table header that
`getTableColumns` computed in the constructor. -/
structure Cfg where
  version : Nat
  pageSize : Nat
  dataPages : List (Nat × List Nat)
  columns : List (Nat × Column)
  header : TableHeaderM
deriving DecidableEq, Repr

/-- The parsed MEMO header fields used by `parseMemo`. -/
structure MemoHeader where
  memoLength : Nat
  recordPointer : Nat
  memoEnd : Nat
deriving DecidableEq, Repr

/-- Modelled from the spec: the `MEMO` struct lives in
parsing-primitives.ts, absent from src/. Per §4.8 it is a 12-byte header
`memoLength: uint32, recordPointer: uint32, unused: uint32` (little-endian),
with the payload following at `memoEnd` = 12; parsing fails when fewer than
12 bytes are available. -/
def parseMemoHeader (bs : List Nat) : Option MemoHeader :=
  match readLE bs 0 4, readLE bs 4 4, readLE bs 8 4 with
  | some ml, some rp, some _ => some ⟨ml, rp, 12⟩
  | _, _, _ => none

/-- The `parseMemo` method (src/index.ts lines 404-430): inline payload when
the top bit of `memoLength` is set, LVAL type 1 through `getOverflowRecord`
when bit 30 is set (an absent record throws), and otherwise the unsupported
LVAL type 2 fallback decoding the slice as the column's own type. Errors
escape to the caller's try/catch. -/
def parseMemo (cfg : Cfg) (relativeObjData : List Nat) (column : Column) :
    Except String Value :=
  match parseMemoHeader relativeObjData with
  | none => .error "Failed to parse memo header"
  | some pm =>
    if pm.memoLength &&& 0x80000000 ≠ 0 then
      let memoData := relativeObjData.drop pm.memoEnd
      parseType .Text memoData (some memoData.length) cfg.version
    else if pm.memoLength &&& 0x40000000 ≠ 0 then
      match getOverflowRecord cfg.dataPages cfg.pageSize pm.recordPointer with
      | .found bs => parseType .Text bs (some bs.length) cfg.version
      | .notFound => .error "LVAL type 1 memoData is undefined"
      | .thrown => .error "Failed to parse data page header"
    else
      parseType column.type relativeObjData (some relativeObjData.length) cfg.version

/-- The `parseFixedLengthData` method (src/index.ts lines 314-341), in
source order: the columnID bound check throws, a RAISED null-table bit
pushes null, an out-of-range fixed offset throws, and otherwise the value
decoded from `record[fixedOffset..]` is pushed. -/
def parseFixedLengthData (cfg : Cfg) (record : List Nat) (column : Column)
    (nullTable : List Bool) (acc : Acc) : Except String Acc :=
  if column.columnID ≥ nullTable.length then
    .error "Failed to parse field, column not found in nullTable"
  else if nullTable.getD column.columnID false then
    .ok (pushVal acc column.colNameStr .vNull)
  else if column.fixedOffset ≥ record.length then
    .error "Column offset is bigger than the length of the record"
  else
    match parseType column.type (record.drop column.fixedOffset) none cfg.version with
    | .error e => .error e
    | .ok v => .ok (pushVal acc column.colNameStr v)

/-- The null-table construction of `parseRow` (src/index.ts lines 506-516):
bit `i` (LSB-first across the trailing bytes) of the null bitmap. -/
def buildNullTable (buf : List Nat) : List Bool :=
  (List.range (buf.length * 8)).map (fun i => (buf.getD (i / 8) 0 &&& (1 <<< (i % 8))) != 0)

/-- The fixed-length loop of `parseRow` (src/index.ts lines 524-532): walk
the column map in key order, push fixed-length columns through
`parseFixedLengthData`, and collect the variable-length columns in order
into `relativeRecordsColumnMap`. -/
def fixedPass (cfg : Cfg) (record : List Nat) (nullTable : List Bool) :
    List (Nat × Column) → Acc → Except String (Acc × List (Nat × Column))
  | [], acc => .ok (acc, [])
  | (k, c) :: rest, acc =>
    if c.fixedLength then
      match parseFixedLengthData cfg record c nullTable acc with
      | .error e => .error e
      | .ok acc2 =>
        match fixedPass cfg record nullTable rest acc2 with
        | .error e => .error e
        | .ok (acc3, vm) => .ok (acc3, vm)
    else
      match fixedPass cfg record nullTable rest acc with
      | .error e => .error e
      | .ok (acc3, vm) => .ok (acc3, (k, c) :: vm)

/-- One iteration of the `parseDynamicLengthData` loop (src/index.ts lines
442-499) for the column at field index `i` with the running
`jumpTableAddition`: a RAISED null bit pushes null before the jump-table
check; otherwise the Jet-3 jump table may add 0x100, the relative start/end
are fetched (`undefined` for out-of-range reads, compared with strict
equality and coerced to 0 by `slice`), Jet 4+ masks overlong offsets with
0xff, equal boundaries push the empty string, Memo columns go through
`parseMemo` with the UTF-8 fallback on any error, and other types through
`parseType` (whose exceptions propagate). Returns the pushed value and the
updated `jumpTableAddition`. -/
def dynStep (cfg : Cfg) (originalRecord : List Nat) (nullTable : List Bool)
    (md : RelMeta) (c : Column) (i jta : Nat) : Except String (Value × Nat) :=
  if c.columnID < nullTable.length ∧ nullTable.getD c.columnID false then
    .ok (.vNull, jta)
  else
    let jta2 := if cfg.version = 3 ∧ md.variableLengthJumpTable.contains i then jta + 0x100 else jta
    let relStart0 := md.variableLengthFieldOffsets.get? i
    let relEnd0 := if i + 1 = md.variableLengthFieldOffsets.length
      then some md.varLenCount else md.variableLengthFieldOffsets.get? (i + 1)
    let mask : Option Nat → Option Nat := fun o =>
      match o with
      | some x => if x > originalRecord.length then some (x &&& 0xff) else some x
      | none => none
    let relStart1 := if cfg.version > 3 then mask relStart0 else relStart0
    let relEnd1 := if cfg.version > 3 then mask relEnd0 else relEnd0
    if relStart1 = relEnd1 then .ok (.vStr "", jta2)
    else
      let s := match relStart1 with | none => 0 | some x => x + jta2
      let e := match relEnd1 with | none => 0 | some x => x + jta2
      let relativeObjData := (originalRecord.drop s).take (e - s)
      if c.type = .Memo then
        match parseMemo cfg relativeObjData c with
        | .ok v => .ok (v, jta2)
        | .error _ => .ok (.vStr (utf8Decode relativeObjData), jta2)
      else
        match parseType c.type relativeObjData (some relativeObjData.length) cfg.version with
        | .ok v => .ok (v, jta2)
        | .error e2 => .error e2

/-- The `parseDynamicLengthData` loop over `relativeRecordsColumnMap`
(src/index.ts lines 431-500): one `dynStep` push per variable-length
column, threading the field index and `jumpTableAddition`. -/
def dynPass (cfg : Cfg) (originalRecord : List Nat) (nullTable : List Bool) (md : RelMeta) :
    List (Nat × Column) → Nat → Nat → Acc → Except String Acc
  | [], _, _, acc => .ok acc
  | (_, c) :: rest, i, jta, acc =>
    match dynStep cfg originalRecord nullTable md c i jta with
    | .error e => .error e
    | .ok (v, jta2) =>
      dynPass cfg originalRecord nullTable md rest (i + 1) jta2 (pushVal acc c.colNameStr v)

/-- The `parseRow` method (src/index.ts lines 501-547): build the null
table from the trailing `ceil(columnCount / 8)` bytes (throwing when that
length is zero or not below the record length), strip the 2-byte (Jet 4+)
or 1-byte (Jet 3) record prefix, run the fixed-length pass, then always run
the variable-length metadata parse (`relativeRecordsColumnMap` is an object
and hence truthy even when empty); an `undefined` metadata result returns
early — the row is dropped for variable-length purposes (`true` in the
result) with the fixed-length pushes retained. -/
def parseRow (P : RelPrim) (cfg : Cfg) (record : List Nat) (acc : Acc) :
    Except String (Acc × Bool) :=
  let originalRecord := record
  let reverseRecord := record.reverse
  let nullTableLen := (cfg.header.columnCount + 7) / 8
  if nullTableLen ≠ 0 ∧ nullTableLen < originalRecord.length then
    let nullTableBuffer := record.drop (record.length - nullTableLen)
    let nullTable := buildNullTable nullTableBuffer
    let record2 := record.drop (if cfg.version > 3 then 2 else 1)
    match fixedPass cfg record2 nullTable cfg.columns acc with
    | .error e => .error e
    | .ok (acc2, varMap) =>
      match parseDynamicLengthRecordsMetadata P cfg.version reverseRecord originalRecord
          nullTableLen cfg.header.variableColumns with
      | .error e => .error e
      | .ok none => .ok (acc2, true)
      | .ok (some md) =>
        match dynPass cfg originalRecord nullTable md varMap 0 0 acc2 with
        | .error e => .error e
        | .ok acc3 => .ok (acc3, false)
  else .error "Failed to parse null table"

/-- The inline-record carving of `parse` (src/index.ts lines 576-578):
`!lastOffset` (also true for 0) slices to the page end, otherwise to
`lastOffset`. -/
def carveRecord (page : List Nat) (recOffset : Nat) (lastOffset : Option Nat) : List Nat :=
  match lastOffset with
  | none => page.drop recOffset
  | some lo => if lo = 0 then page.drop recOffset else (page.drop recOffset).take (lo - recOffset)

/-- The record-offset loop of `parse` (src/index.ts lines 553-581) over one
data page, threading `lastOffset` (note `!lastOffset` also fires on 0) and
counting emitted (fully parsed) and dropped rows. Deleted slots (bit
0x8000) only update `lastOffset`; overflow slots (bit 0x4000) read a 4-byte
pointer and parse the resolved record when found; plain slots carve
`[recOffset, lastOffset)` or the page tail. -/
def parsePageRecords (P : RelPrim) (cfg : Cfg) (page : List Nat) :
    List Nat → Option Nat → Acc × Nat × Nat → Except String (Acc × Nat × Nat)
  | [], _, st => .ok st
  | recOffset :: rest, lastOffset, (acc, emitted, dropped) =>
    if recOffset &&& 0x8000 ≠ 0 then
      parsePageRecords P cfg page rest (some (recOffset &&& 0xfff)) (acc, emitted, dropped)
    else if recOffset &&& 0x4000 ≠ 0 then
      let recPtrOffset := recOffset &&& 0xfff
      match readLE page recPtrOffset 4 with
      | none => .error "RangeError: getUint32"
      | some overflowRecPtr =>
        match getOverflowRecord cfg.dataPages cfg.pageSize overflowRecPtr with
        | .thrown => .error "Failed to parse data page header"
        | .notFound => parsePageRecords P cfg page rest (some recPtrOffset) (acc, emitted, dropped)
        | .found record =>
          match parseRow P cfg record acc with
          | .error e => .error e
          | .ok (acc2, dr) =>
            parsePageRecords P cfg page rest (some recPtrOffset)
              (acc2, emitted + (if dr then 0 else 1), dropped + (if dr then 1 else 0))
    else
      match parseRow P cfg (carveRecord page recOffset lastOffset) acc with
      | .error e => .error e
      | .ok (acc2, dr) =>
        parsePageRecords P cfg page rest (some recOffset)
          (acc2, emitted + (if dr then 0 else 1), dropped + (if dr then 1 else 0))

/-- A `TableObject`: the TDEF page bytes and the data pages linked to it. -/
structure TableObject where
  value : List Nat
  linkedPages : List (List Nat)
deriving DecidableEq, Repr

/-- The page loop of `parse` (src/index.ts lines 548-584) over the linked
data pages. The `!this.table.linkedPages` guard at line 549 is dead code
(`linkedPages` is always an array, which is truthy even when empty), so the
loop always runs on the possibly empty page list. An unparseable data-page
header here is unguarded and aborts the whole parse. -/
def accessTableParsePages (P : RelPrim) (cfg : Cfg) :
    List (List Nat) → Acc × Nat × Nat → Except String (Acc × Nat × Nat)
  | [], st => .ok st
  | page :: rest, st =>
    match parseDataPageHeader page with
    | none => .error "Failed to parse data page header"
    | some pd =>
      match parsePageRecords P cfg page pd.recordOffsets none st with
      | .error e => .error e
      | .ok st2 => accessTableParsePages P cfg rest st2

/-- `AccessTable.parse` on a `TableObject`, starting from the empty
accumulator and returning it together with the emitted and dropped row
counts. -/
def tableParse (P : RelPrim) (cfg : Cfg) (tob : TableObject) :
    Except String (Acc × Nat × Nat) :=
  accessTableParsePages P cfg tob.linkedPages ([], 0, 0)

/-- Append a data page to an existing `TableObject`'s `linkedPages`
(the `push` at src/index.ts line 113). -/
def addLinked : List (Nat × TableObject) → Nat → List Nat → List (Nat × TableObject)
  | [], _, _ => []
  | (k, t) :: rest, off, pg =>
    if k = off then (k, { t with linkedPages := t.linkedPages ++ [pg] }) :: rest
    else (k, t) :: addLinked rest off pg

/-- The owner-matching body of a `linkTablesToData` iteration
(src/index.ts lines 101-114): when the owner's byte offset names a TDEF
page, create the `TableObject` on first sight and append the data page. -/
def linkOwner (tableDefs : List (Nat × List Nat)) (pageSize : Nat)
    (acc : List (Nat × TableObject)) (pg : Nat × List Nat) (h : DataPageHeader) :
    List (Nat × TableObject) :=
  match alookup tableDefs (h.owner * pageSize) with
  | none => acc
  | some tdv =>
    addLinked
      (if (alookup acc (h.owner * pageSize)).isNone then
        acc ++ [(h.owner * pageSize, ⟨tdv, []⟩)] else acc)
      (h.owner * pageSize) pg.2

/-- One iteration of `linkTablesToData` (src/index.ts lines 92-115): skip
pages whose header fails to parse (the try/catch), else run `linkOwner`. -/
def linkStep (tableDefs : List (Nat × List Nat)) (pageSize : Nat)
    (acc : List (Nat × TableObject)) (pg : Nat × List Nat) : List (Nat × TableObject) :=
  match parseDataPageHeader pg.2 with
  | none => acc
  | some h => linkOwner tableDefs pageSize acc pg h

/-- The `linkTablesToData` method (src/index.ts lines 90-117): fold the
data pages (key order) into the TDEF-offset-keyed `TableObject` map. -/
def linkTablesToData (tableDefs dataPages : List (Nat × List Nat)) (pageSize : Nat) :
    List (Nat × TableObject) :=
  dataPages.foldl (linkStep tableDefs pageSize) []

/-- The `AccessParser` fields that `parseTable` reads: all are written once
during construction (`tablesWithData` is `linkTablesToData` of the
immutable page maps and is recomputed here from them). -/
structure ParserState where
  version : Nat
  pageSize : Nat
  tableDefs : List (Nat × List Nat)
  dataPages : List (Nat × List Nat)
  catalog : List (String × Nat)
deriving DecidableEq, Repr

/-- The three throw sites of `parseTableUnformatted` (src/index.ts lines
153-168): name absent from the catalog, catalog offset with no TDEF page,
and a TDEF page with no linked data pages. -/
inductive TableErr where
  | unknownTable
  | missingTdef
  | emptyTable
deriving DecidableEq, Repr

/-- The lookup part of `parseTableUnformatted` (src/index.ts lines
153-168): catalog id times page size indexes `tablesWithData`; on a miss, a
present TDEF page means the "Empty table" throw and an absent one the
"Could not find table ... offset" throw. The successful branch hands the
`TableObject` to a fresh `AccessTable`. -/
def parseTableLookup (s : ParserState) (tableName : String) : Except TableErr TableObject :=
  match alookup s.catalog tableName with
  | none => .error .unknownTable
  | some id =>
    let tableOffset := id * s.pageSize
    match alookup (linkTablesToData s.tableDefs s.dataPages s.pageSize) tableOffset with
    | some t => .ok t
    | none =>
      match alookup s.tableDefs tableOffset with
      | none => .error .missingTdef
      | some _ => .error .emptyTable

/-- One output row of `parseTable`: the per-field values (an out-of-range
array read yields `undefined`, hence `Option`) and the 1-based row number. -/
structure RowLine where
  data : List (String × Option Value)
  rowNumber : Nat
deriving DecidableEq, Repr

/-- The row-formatting loop of `parseTable` (src/index.ts lines 178-194):
no fields gives `[]`; otherwise `linesNumber` is the length of the FIRST
field's array and each row collects `table[field][i]` with `rowNumber`
`i + 1`. -/
def formatRows (acc : Acc) : List RowLine :=
  match acc with
  | [] => []
  | (_, vs0) :: _ =>
    (List.range vs0.length).map (fun i => ⟨acc.map (fun fv => (fv.1, fv.2.get? i)), i + 1⟩)

/-- The type of the column-map construction `getTableColumns`
(src/index.ts lines 233-273): a pure function of the TDEF page maps, the
page size, the version and the table's TDEF bytes, whose internals
(`parseTableHead`, `parseTableData`, `TDEF_HEADER`) live in
parsing-primitives.ts, absent from src/; theorems quantify over it. It
reads only immutable constructor inputs and returns the column map and
table header (or throws "Failed to parse table header"). -/
def GetColumnsPrim : Type :=
  List (Nat × List Nat) → Nat → Nat → List Nat → Except String (List (Nat × Column) × TableHeaderM)

/-- The `parseTable` method (src/index.ts lines 178-194) with its callee
`parseTableUnformatted`, in state-passing form over the `AccessParser`
fields. Mutation audit of the call's dynamic extent: the only assignments
are to the fresh `AccessTable`'s own `parsedTable` accumulator (lines 230,
325-326, 329, 340, 449-452, 471-473, 496-498), to the fresh column objects
(line 258) and fresh metadata objects (lines 370, 394) produced per call,
and to call-local variables; no `AccessParser` field is assigned, so the
state component is returned unchanged. -/
def parseTableS (P : RelPrim) (GC : GetColumnsPrim) (s : ParserState)
    (tableName : String) : Except String (List RowLine) × ParserState :=
  (match parseTableLookup s tableName with
   | .error .unknownTable => .error "Could not find table in Database"
   | .error .missingTdef => .error "Could not find table offset"
   | .error .emptyTable => .error "Empty table"
   | .ok tob =>
     match GC s.tableDefs s.pageSize s.version tob.value with
     | .error e => .error e
     | .ok (cols, hdr) =>
       match tableParse P ⟨s.version, s.pageSize, s.dataPages, cols, hdr⟩ tob with
       | .error e => .error e
       | .ok (acc, _, _) => .ok (formatRows acc),
   s)

/-- The `SYSTEM_TABLE_FLAGS` constant (src/index.ts line 30). -/
def systemTableFlags : List Rat :=
  [-0x80000000, -0x00000002, 0x80000000, 0x00000002]

/-- JS object assignment `tablesMapping[tableName] = ids[i]`: overwrite an
existing key's value, else append. -/
def setVal : List (String × Option Value) → String → Option Value → List (String × Option Value)
  | [], n, w => [(n, w)]
  | (m, u) :: rest, n, w => if m = n then (m, w) :: rest else (m, u) :: setVal rest n w

/-- JS strict equality of a possibly-undefined catalog cell with a number. -/
def isNumEq : Option Value → Rat → Bool
  | some (.vNum q), r => q == r
  | _, _ => false

/-- JS `SYSTEM_TABLE_FLAGS.includes(flags[i])`. -/
def isSysFlag : Option Value → Bool
  | some (.vNum q) => systemTableFlags.contains q
  | _ => false

/-- The catalog-filter loop of `parseCatalog` (src/index.ts lines 141-150).
The counter `i` starts at -1 and is incremented only for string-valued
names (non-strings `continue` BEFORE the increment), so `types[i]`,
`flags[i]` and `ids[i]` are indexed by the count of preceding string names,
not by the entry's own position. Kept entries need `types[i] === 1`,
`flags[i]` outside `SYSTEM_TABLE_FLAGS` and `flags[i] === 0`. -/
def parseCatalogEntries (types flags ids : List Value) :
    List Value → Nat → List (String × Option Value) → List (String × Option Value)
  | [], _, acc => acc
  | v :: rest, i, acc =>
    match v with
    | .vStr s =>
      let keep := isNumEq (types.get? i) 1 && !(isSysFlag (flags.get? i)) && isNumEq (flags.get? i) 0
      let acc2 := if keep then setVal acc s (ids.get? i) else acc
      parseCatalogEntries types flags ids rest (i + 1) acc2
    | _ => parseCatalogEntries types flags ids rest i acc

/-- The filter of `parseCatalog` applied to the parallel `Name`, `Type`,
`Flags` and `Id` columns parsed from MSysObjects. -/
def parseCatalogFilter (names types flags ids : List Value) : List (String × Option Value) :=
  parseCatalogEntries types flags ids names 0 []

/-- Number of columns in a column-map list carrying a given name. -/
def countName : List (Nat × Column) → String → Nat
  | [], _ => 0
  | (_, c) :: rest, n => (if c.colNameStr = n then 1 else 0) + countName rest n

/-- Number of fixed-length columns in a column-map list carrying a given
name. -/
def countFixedName : List (Nat × Column) → String → Nat
  | [], _ => 0
  | (_, c) :: rest, n => (if c.fixedLength ∧ c.colNameStr = n then 1 else 0) + countFixedName rest n

/-- The variable-length columns of a column-map list in order (the
`relativeRecordsColumnMap` collected by `parseRow`). -/
def varColsOf : List (Nat × Column) → List (Nat × Column)
  | [] => []
  | (k, c) :: rest => if c.fixedLength then varColsOf rest else (k, c) :: varColsOf rest

/-- Fixture: a fixed-length Int16 column with columnID 0 at fixed offset 0. -/
def colIntA : Column := ⟨"A", .Int16, 0, 0, true⟩

/-- Fixture: a variable-length Text column with columnID 1. -/
def colTextB : Column := ⟨"B", .Text, 1, 0, false⟩

/-- Fixture: a Jet 3 table with the single fixed column `A`. -/
def cfgFixedOnly : Cfg := ⟨3, 2048, [], [(0, colIntA)], ⟨1, 0⟩⟩

/-- Fixture: a Jet 3 table with fixed column `A` and variable column `B`. -/
def cfgMixed : Cfg := ⟨3, 2048, [], [(0, colIntA), (1, colTextB)], ⟨2, 1⟩⟩

/-- Fixture: one data page whose single record has mismatched
variable-length metadata that the recovery heuristic cannot repair
(the low byte of `variableColumns` first occurs at reversed index 1), so
`parseRow` drops the row after the fixed-length pass. -/
def pageDropRow : List Nat := [1, 1, 0, 1, 6, 0, 3, 7, 1, 2, 1]

/-- Fixture: one data page whose single record parses completely
(`A` = 42, `B` = "Hi"). -/
def pageFullRow : List Nat := [1, 1, 0, 1, 6, 0, 0, 42, 0, 72, 105, 5, 3, 1, 0]

/-- Fixture: a parser state with one catalog entry `T` at page 1, a TDEF
page at the matching offset 2048, and no data pages. -/
def stateTdefOnly : ParserState := ⟨3, 2048, [(2048, [2, 1])], [], [("T", 1)]⟩

end AccessDB

deriving instance DecidableEq for Except

namespace AccessDB

/-- Claim C1 (the code inverts it): for a Jet 3 table with one fixed Int16
column (columnID 0), the record `[0x00, 42, 0x00, 0x01]` has bit 0 of its
trailing null-bitmap byte SET, yet `parseRow` emits null for the column;
with the bitmap byte `0x00` (bit 0 CLEAR) it emits the decoded value 42.
`parseFixedLengthData` (and likewise `parseDynamicLengthData`) pushes null
exactly when `nullTable[column.columnID]` is true, i.e. when the bit is
set — the opposite of the claimed (and documented Jet) convention that a
set bit means the column holds a value. -/
theorem c1_null_polarity :
    parseRow primModel cfgFixedOnly [0, 42, 0, 1] [] = .ok ([("A", [Value.vNull])], false) ∧
    parseRow primModel cfgFixedOnly [0, 42, 0, 0] [] = .ok ([("A", [Value.vNum 42])], false) :=
  ⟨by decide, by decide⟩

/-- Claim C2 counterexample: on the one-record page `pageDropRow` the
variable-length metadata mismatch drops the row AFTER the fixed-length pass
already pushed a value, so the produced table has column `A` with one value
and column `B` with none — the per-column arrays do not have equal length. -/
theorem c2_counterexample :
    tableParse primModel cfgMixed ⟨[], [pageDropRow]⟩ = .ok ([("A", [Value.vNull])], 0, 1) ∧
    colLen [("A", [Value.vNull])] "A" = 1 ∧ colLen [("A", [Value.vNull])] "B" = 0 :=
  ⟨by decide, by decide, by decide⟩

/-- Claim C3 counterexample: decoding a DateTime whose Float64 payload is
0.0 yields "1899-12-30T00:00:00.000Z", not the claimed
"1899-12-30T12:00:00.000Z" — `setHours` overwrites the epoch constant's
12:00 time-of-day with the floored (zero) fraction parts. -/
theorem c3_counterexample :
    parseType .DateTime [0, 0, 0, 0, 0, 0, 0, 0] none 3 =
      .ok (.vStr "1899-12-30T00:00:00.000Z") ∧
    ("1899-12-30T00:00:00.000Z" : String) ≠ "1899-12-30T12:00:00.000Z" :=
  ⟨by decide, by decide⟩

/-- Claim C3 as amended: the payload 0.0 decodes to
"1899-12-30T00:00:00.000Z" and the payload 1.5 (bytes
`00 00 00 00 00 00 F8 3F`) to "1899-12-31T12:00:00.000Z" (UTC
environment): the integer part is added as days and `setHours` then sets
the time of day to the floored ×24, ×60, ×60 fraction parts. -/
theorem c3_datetime_values :
    parseType .DateTime [0, 0, 0, 0, 0, 0, 0, 0] none 3 =
      .ok (.vStr "1899-12-30T00:00:00.000Z") ∧
    parseType .DateTime [0, 0, 0, 0, 0, 0, 0xF8, 0x3F] none 3 =
      .ok (.vStr "1899-12-31T12:00:00.000Z") :=
  ⟨by decide, by decide⟩

/-- Claim C4 counterexample: the Money bytes `00 D4 30 00 00 00 00 00`
decode to low = 0x0030D400 = 3200000, high = 0, so the fixed-point rule
gives 3200000 / 10000 = 320, not the claimed 1.2345. -/
theorem c4_counterexample :
    parseType .Money [0x00, 0xD4, 0x30, 0, 0, 0, 0, 0] none 4 = .ok (.vNum 320) ∧
    Value.vNum 320 ≠ Value.vNum (mkRat 12345 10000) :=
  ⟨by decide, by decide⟩

/-- Claim C4 as amended: those eight bytes decode, per the documented rule
value = (low unsigned + high signed · 2³²) / 10000, to 3200000 / 10000 =
320. -/
theorem c4_money_value :
    parseType .Money [0x00, 0xD4, 0x30, 0, 0, 0, 0, 0] none 4 =
      .ok (.vNum (mkRat 3200000 10000)) :=
  by decide

/-- Claim C5 counterexample: with `variableColumns` = 1, the reversed
record tail `[2, 1, 0, 7, 9, 3]` parses to a mismatched count of 2, and
the 2-byte little-endian encoding `[1, 0]` of `variableColumns` occurs at
index 1 — within the first 10 bytes — where a re-parse would recover the
matching count 1; yet the code drops the row (`.ok none`) because
`indexOf` found the single low byte at the excluded index 1. So the
claimed "if found within the first 10 bytes, re-parse" is false here. -/
theorem c5_counterexample :
    parseDynamicLengthRecordsMetadata primModel 3 [9, 2, 1, 0, 7, 9, 3]
      [0, 0, 0, 0, 0, 0, 0] 1 1 = .ok none ∧
    (([9, 2, 1, 0, 7, 9, 3].drop 1).drop 1).take 2 = [1, 0] ∧
    (∃ m, primModel (([9, 2, 1, 0, 7, 9, 3].drop 1).drop 1)
        (some (jumpCntOf [0, 0, 0, 0, 0, 0, 0])) 3 = some m ∧
      m.variableLengthFieldCount = 1) :=
  ⟨by decide, by decide, ⟨⟨1, [0], [], 7, 3⟩, by decide, by decide⟩⟩

/-- Claim C7 counterexample: the pointer 768 decomposes to page 3 and slot
0 as claimed, but the data page present at offset 3 × 2048 has an
unparseable header and `getOverflowRecord` — whose `parseDataPageHeader`
call is not guarded — throws instead of reporting not-found. -/
theorem c7_counterexample :
    getOverflowRecord [(6144, [1, 1, 5])] 2048 768 = .thrown ∧
    768 / 256 = 3 ∧ 768 % 256 = 0 :=
  ⟨by decide, by decide, by decide⟩

/-- Claim C8 counterexample: with the catalog columns
Name = [null, "Evil"], Type = [1, 0], Flags = [0, 0x80000000], the
non-string name is skipped without advancing the parallel index, so "Evil"
is tested against entry 0 and gets listed — although its own entry
(index 1) has Type 0 and the system-table flag 0x80000000 set. -/
theorem c8_counterexample :
    parseCatalogFilter [Value.vNull, Value.vStr "Evil"] [Value.vNum 1, Value.vNum 0]
        [Value.vNum 0, Value.vNum 2147483648] [Value.vNum 7, Value.vNum 8] =
      [("Evil", some (Value.vNum 7))] ∧
    [Value.vNull, Value.vStr "Evil"].get? 1 = some (Value.vStr "Evil") ∧
    [Value.vNum 1, Value.vNum 0].get? 1 = some (Value.vNum 0) ∧
    isSysFlag ([Value.vNum 0, Value.vNum 2147483648].get? 1) = true :=
  ⟨by decide, by decide, by decide, by decide⟩

/-- Helper: the length of a column other than the head's skips the head. -/
theorem colLen_cons_ne {k m : String} (h : ¬k = m) (vs : List Value) (tl : Acc) :
    colLen ((k, vs) :: tl) m = colLen tl m := by
  simp [colLen, alookup, h]

/-- Helper: the length of the head column is its list's length. -/
theorem colLen_cons_eq (k : String) (vs : List Value) (tl : Acc) :
    colLen ((k, vs) :: tl) k = vs.length := by
  simp [colLen, alookup]

/-- Helper: pushing a value changes exactly the pushed column's length. -/
theorem colLen_pushVal (acc : Acc) (n : String) (v : Value) (m : String) :
    colLen (pushVal acc n v) m = colLen acc m + (if n = m then 1 else 0) := by
  induction acc with
  | nil =>
    by_cases h : n = m
    · subst h; simp [pushVal, colLen, alookup]
    · simp [pushVal, colLen, alookup, h]
  | cons hd tl ih =>
    obtain ⟨k, vs⟩ := hd
    by_cases hk : k = n
    · subst hk
      rw [show pushVal ((k, vs) :: tl) k v = (k, vs ++ [v]) :: tl from by simp [pushVal]]
      by_cases h : k = m
      · subst h
        simp [colLen_cons_eq]
      · rw [colLen_cons_ne h, colLen_cons_ne h, if_neg h]
        omega
    · rw [show pushVal ((k, vs) :: tl) n v = (k, vs) :: pushVal tl n v from by
        simp [pushVal, hk]]
      by_cases hm : k = m
      · subst hm
        have hnk : ¬n = k := fun he => hk he.symm
        rw [colLen_cons_eq, colLen_cons_eq, if_neg hnk]
        omega
      · rw [colLen_cons_ne hm, colLen_cons_ne hm, ih]

/-- Helper: the fixed and variable column counts for a name add up to the
total count for that name. -/
theorem countName_split (cols : List (Nat × Column)) (n : String) :
    countFixedName cols n + countName (varColsOf cols) n = countName cols n := by
  induction cols with
  | nil => rfl
  | cons hd tl ih =>
    obtain ⟨k, c⟩ := hd
    by_cases hf : c.fixedLength <;> by_cases hn : c.colNameStr = n <;>
      simp [countFixedName, countName, varColsOf, hf, hn] <;> omega

/-- Helper: a successful `parseFixedLengthData` pushes exactly one value to
the column's array. -/
theorem parseFixedLengthData_ok {cfg : Cfg} {record : List Nat} {c : Column}
    {nullTable : List Bool} {acc acc2 : Acc}
    (h : parseFixedLengthData cfg record c nullTable acc = .ok acc2) :
    ∃ v, acc2 = pushVal acc c.colNameStr v := by
  unfold parseFixedLengthData at h
  split at h
  · cases h
  · split at h
    · exact ⟨.vNull, (Except.ok.injEq _ _ ▸ h).symm⟩
    · split at h
      · cases h
      · split at h
        · cases h
        · exact ⟨_, (Except.ok.injEq _ _ ▸ h).symm⟩

/-- Helper: a successful fixed-length pass pushes one value per
fixed-length column and returns the variable-length columns in order. -/
theorem fixedPass_spec (cfg : Cfg) (record : List Nat) (nullTable : List Bool) :
    ∀ (cols : List (Nat × Column)) (acc acc2 : Acc) (vm : List (Nat × Column)),
      fixedPass cfg record nullTable cols acc = .ok (acc2, vm) →
      (∀ n, colLen acc2 n = colLen acc n + countFixedName cols n) ∧ vm = varColsOf cols := by
  intro cols
  induction cols with
  | nil =>
    intro acc acc2 vm h
    simp only [fixedPass] at h
    injection h with h
    injection h with h1 h2
    subst h1; subst h2
    exact ⟨fun n => by simp [countFixedName], rfl⟩
  | cons hd tl ih =>
    obtain ⟨k, c⟩ := hd
    intro acc acc2 vm h
    simp only [fixedPass] at h
    by_cases hf : c.fixedLength
    · rw [if_pos hf] at h
      cases hpf : parseFixedLengthData cfg record c nullTable acc with
      | error e => simp [hpf] at h
      | ok accm =>
        simp only [hpf] at h
        cases hfp : fixedPass cfg record nullTable tl accm with
        | error e => simp [hfp] at h
        | ok pr =>
          obtain ⟨acc3, vm2⟩ := pr
          simp only [hfp] at h
          injection h with h
          injection h with h1 h2
          subst h1; subst h2
          obtain ⟨hl, hvm⟩ := ih accm acc3 vm2 hfp
          obtain ⟨v, hv⟩ := parseFixedLengthData_ok hpf
          subst hv
          refine ⟨fun n => ?_, by simp [varColsOf, hf, hvm]⟩
          rw [hl n, colLen_pushVal]
          simp only [countFixedName, hf, true_and]
          by_cases hn : c.colNameStr = n <;> simp [hn] <;> omega
    · rw [if_neg hf] at h
      cases hfp : fixedPass cfg record nullTable tl acc with
      | error e => simp [hfp] at h
      | ok pr =>
        obtain ⟨acc3, vm2⟩ := pr
        simp only [hfp] at h
        injection h with h
        injection h with h1 h2
        subst h1; subst h2
        obtain ⟨hl, hvm⟩ := ih acc acc3 vm2 hfp
        refine ⟨fun n => ?_, by simp [varColsOf, hf, hvm]⟩
        rw [hl n]
        simp [countFixedName, hf]

/-- Helper: a successful dynamic-length pass pushes exactly one value per
variable-length column. -/
theorem dynPass_spec (cfg : Cfg) (orig : List Nat) (nullTable : List Bool) (md : RelMeta) :
    ∀ (cols : List (Nat × Column)) (i jta : Nat) (acc acc2 : Acc),
      dynPass cfg orig nullTable md cols i jta acc = .ok acc2 →
      ∀ n, colLen acc2 n = colLen acc n + countName cols n := by
  intro cols
  induction cols with
  | nil =>
    intro i jta acc acc2 h n
    simp only [dynPass] at h
    injection h with h
    subst h
    simp [countName]
  | cons hd tl ih =>
    obtain ⟨k, c⟩ := hd
    intro i jta acc acc2 h n
    simp only [dynPass] at h
    cases hds : dynStep cfg orig nullTable md c i jta with
    | error e => simp [hds] at h
    | ok pr =>
      obtain ⟨v, jta2⟩ := pr
      simp only [hds] at h
      have hrec := ih (i + 1) jta2 (pushVal acc c.colNameStr v) acc2 h n
      rw [hrec, colLen_pushVal]
      simp only [countName]
      by_cases hn : c.colNameStr = n <;> simp [hn] <;> omega

/-- Helper: a successful `parseRow` pushes one value per column when the
row is fully parsed, and one value per FIXED-length column when the
variable-length metadata drop fires. -/
theorem parseRow_spec {P : RelPrim} {cfg : Cfg} {record : List Nat} {acc acc2 : Acc} {dr : Bool}
    (h : parseRow P cfg record acc = .ok (acc2, dr)) :
    ∀ n, colLen acc2 n = colLen acc n +
      (if dr then countFixedName cfg.columns n else countName cfg.columns n) := by
  intro n
  simp only [parseRow] at h
  by_cases hc : (cfg.header.columnCount + 7) / 8 ≠ 0 ∧
      (cfg.header.columnCount + 7) / 8 < record.length
  case neg =>
    rw [if_neg hc] at h
    exact absurd h (by simp)
  case pos =>
    rw [if_pos hc] at h
    cases hfp : fixedPass cfg (record.drop (if cfg.version > 3 then 2 else 1))
        (buildNullTable (record.drop (record.length - (cfg.header.columnCount + 7) / 8)))
        cfg.columns acc with
    | error e => simp [hfp] at h
    | ok pr =>
      obtain ⟨accf, vm⟩ := pr
      simp only [hfp] at h
      obtain ⟨hlf, hvm⟩ := fixedPass_spec _ _ _ _ _ _ _ hfp
      cases hmd : parseDynamicLengthRecordsMetadata P cfg.version record.reverse record
          ((cfg.header.columnCount + 7) / 8) cfg.header.variableColumns with
      | error e => simp [hmd] at h
      | ok om =>
        simp only [hmd] at h
        cases om with
        | none =>
          injection h with h
          injection h with h1 h2
          subst h1; subst h2
          simp only [if_pos rfl]
          exact hlf n
        | some md =>
          cases hdp : dynPass cfg record
              (buildNullTable (record.drop (record.length - (cfg.header.columnCount + 7) / 8)))
              md vm 0 0 accf with
          | error e => simp [hdp] at h
          | ok acc3 =>
            simp only [hdp] at h
            injection h with h
            injection h with h1 h2
            subst h1; subst h2
            have hld := dynPass_spec _ _ _ _ _ _ _ _ _ hdp n
            rw [hvm] at hld
            have hlfn := hlf n
            have hsplit := countName_split cfg.columns n
            simp only [Bool.false_eq_true, if_false]
            omega

/-- Helper: the record loop adds `a` emitted and `b` dropped rows and
grows each column's array by `a` times its column count plus `b` times its
fixed-column count. -/
theorem parsePageRecords_spec (P : RelPrim) (cfg : Cfg) (page : List Nat) :
    ∀ (offs : List Nat) (lastOff : Option Nat) (acc : Acc) (e d : Nat)
      (acc2 : Acc) (e2 d2 : Nat),
      parsePageRecords P cfg page offs lastOff (acc, e, d) = .ok (acc2, e2, d2) →
      ∃ a b, e2 = e + a ∧ d2 = d + b ∧
        ∀ n, colLen acc2 n = colLen acc n + a * countName cfg.columns n +
          b * countFixedName cfg.columns n := by
  intro offs
  induction offs with
  | nil =>
    intro lastOff acc e d acc2 e2 d2 h
    simp only [parsePageRecords] at h
    injection h with h
    injection h with h1 h
    injection h with h2 h3
    subst h1; subst h2; subst h3
    exact ⟨0, 0, by omega, by omega, fun n => by simp⟩
  | cons ro rest ih =>
    intro lastOff acc e d acc2 e2 d2 h
    simp only [parsePageRecords] at h
    split at h
    · exact ih _ _ _ _ _ _ _ h
    · split at h
      · cases hrl : readLE page (ro &&& 0xfff) 4 with
        | none => simp [hrl] at h
        | some ptr =>
          simp only [hrl] at h
          cases hov : getOverflowRecord cfg.dataPages cfg.pageSize ptr with
          | thrown => simp [hov] at h
          | notFound => simp only [hov] at h; exact ih _ _ _ _ _ _ _ h
          | found rec2 =>
            simp only [hov] at h
            cases hpr : parseRow P cfg rec2 acc with
            | error e3 => simp [hpr] at h
            | ok pr =>
              obtain ⟨accr, drr⟩ := pr
              simp only [hpr] at h
              obtain ⟨a, b, he, hd2, hlen⟩ := ih _ _ _ _ _ _ _ h
              have hrow := parseRow_spec hpr
              cases drr with
              | true =>
                have he2 : e2 = e + a := by simpa using he
                have hd3 : d2 = (d + 1) + b := by simpa using hd2
                refine ⟨a, b + 1, by omega, by omega, fun n => ?_⟩
                have h1 := hlen n
                have h2 := hrow n
                rw [if_pos rfl] at h2
                rw [Nat.add_mul, one_mul]
                omega
              | false =>
                have he2 : e2 = (e + 1) + a := by simpa using he
                have hd3 : d2 = d + b := by simpa using hd2
                refine ⟨a + 1, b, by omega, by omega, fun n => ?_⟩
                have h1 := hlen n
                have h2 := hrow n
                rw [if_neg (by simp)] at h2
                rw [Nat.add_mul, one_mul]
                omega
      · cases hpr : parseRow P cfg (carveRecord page ro lastOff) acc with
        | error e3 => simp [hpr] at h
        | ok pr =>
          obtain ⟨accr, drr⟩ := pr
          simp only [hpr] at h
          obtain ⟨a, b, he, hd2, hlen⟩ := ih _ _ _ _ _ _ _ h
          have hrow := parseRow_spec hpr
          cases drr with
          | true =>
            have he2 : e2 = e + a := by simpa using he
            have hd3 : d2 = (d + 1) + b := by simpa using hd2
            refine ⟨a, b + 1, by omega, by omega, fun n => ?_⟩
            have h1 := hlen n
            have h2 := hrow n
            rw [if_pos rfl] at h2
            rw [Nat.add_mul, one_mul]
            omega
          | false =>
            have he2 : e2 = (e + 1) + a := by simpa using he
            have hd3 : d2 = d + b := by simpa using hd2
            refine ⟨a + 1, b, by omega, by omega, fun n => ?_⟩
            have h1 := hlen n
            have h2 := hrow n
            rw [if_neg (by simp)] at h2
            rw [Nat.add_mul, one_mul]
            omega

/-- Helper: the page loop composes the per-page record-loop accounting. -/
theorem accessTableParsePages_spec (P : RelPrim) (cfg : Cfg) :
    ∀ (pages : List (List Nat)) (acc : Acc) (e d : Nat) (acc2 : Acc) (e2 d2 : Nat),
      accessTableParsePages P cfg pages (acc, e, d) = .ok (acc2, e2, d2) →
      ∃ a b, e2 = e + a ∧ d2 = d + b ∧
        ∀ n, colLen acc2 n = colLen acc n + a * countName cfg.columns n +
          b * countFixedName cfg.columns n := by
  intro pages
  induction pages with
  | nil =>
    intro acc e d acc2 e2 d2 h
    simp only [accessTableParsePages] at h
    injection h with h
    injection h with h1 h
    injection h with h2 h3
    subst h1; subst h2; subst h3
    exact ⟨0, 0, by omega, by omega, fun n => by simp⟩
  | cons page rest ih =>
    intro acc e d acc2 e2 d2 h
    simp only [accessTableParsePages] at h
    cases hph : parseDataPageHeader page with
    | none => simp [hph] at h
    | some pd =>
      simp only [hph] at h
      cases hpp : parsePageRecords P cfg page pd.recordOffsets none (acc, e, d) with
      | error e3 => simp [hpp] at h
      | ok st2 =>
        obtain ⟨accm, em, dm⟩ := st2
        simp only [hpp] at h
        obtain ⟨a1, b1, he1, hd1, hl1⟩ := parsePageRecords_spec P cfg page _ _ _ _ _ _ _ _ hpp
        obtain ⟨a2, b2, he2, hd2, hl2⟩ := ih _ _ _ _ _ _ h
        refine ⟨a1 + a2, b1 + b2, by omega, by omega, fun n => ?_⟩
        have h1 := hl1 n
        have h2 := hl2 n
        rw [Nat.add_mul, Nat.add_mul]
        omega

/-- Helper: a name outside a column map has count zero there. -/
theorem countName_eq_zero {cols : List (Nat × Column)} {n : String}
    (h : n ∉ cols.map (fun kc => kc.2.colNameStr)) : countName cols n = 0 := by
  induction cols with
  | nil => rfl
  | cons hd tl ih =>
    obtain ⟨k, c⟩ := hd
    simp only [List.map, List.mem_cons, not_or] at h
    obtain ⟨h1, h2⟩ := h
    simp only [countName]
    rw [if_neg (fun he => h1 he.symm), ih h2]

/-- Helper: with pairwise distinct column names, a member column's name has
count one. -/
theorem countName_nodup {cols : List (Nat × Column)}
    (h : (cols.map (fun kc => kc.2.colNameStr)).Nodup) {kc : Nat × Column} (hm : kc ∈ cols) :
    countName cols kc.2.colNameStr = 1 := by
  induction cols with
  | nil => cases hm
  | cons hd tl ih =>
    obtain ⟨k, c⟩ := hd
    simp only [List.map_cons, List.nodup_cons] at h
    obtain ⟨hnot, htl⟩ := h
    simp only [countName]
    rcases List.mem_cons.mp hm with rfl | hmem
    · rw [if_pos rfl]
      have hz : countName tl ((k, c)).2.colNameStr = 0 := countName_eq_zero hnot
      omega
    · have hne : c.colNameStr ≠ kc.2.colNameStr := by
        intro he
        exact hnot (by rw [he]; exact List.mem_map_of_mem (fun kc2 => kc2.2.colNameStr) hmem)
      rw [if_neg hne, ih htl hmem]

/-- Claim C2 as amended: for every table whose parse succeeds WITHOUT
dropping any row, and whose column names are pairwise distinct, every
column's array length equals the number of emitted rows. (The claim's
clause that a dropped row leaves no partially-pushed values is false: a
drop fires after the fixed-length pass has pushed, see the
counterexample.) -/
theorem c2_equal_lengths (P : RelPrim) (cfg : Cfg) (tob : TableObject) (acc : Acc)
    (emitted : Nat)
    (hrun : tableParse P cfg tob = .ok (acc, emitted, 0))
    (hnames : (cfg.columns.map (fun kc => kc.2.colNameStr)).Nodup) :
    ∀ kc ∈ cfg.columns, colLen acc kc.2.colNameStr = emitted := by
  intro kc hm
  obtain ⟨a, b, he, hd, hlen⟩ :=
    accessTableParsePages_spec P cfg tob.linkedPages [] 0 0 acc emitted 0 hrun
  have hb : b = 0 := by omega
  subst hb
  have hone := countName_nodup hnames hm
  have hthis := hlen kc.2.colNameStr
  rw [hone] at hthis
  have hnil : colLen ([] : Acc) kc.2.colNameStr = 0 := rfl
  rw [hnil, Nat.mul_one, Nat.zero_mul] at hthis
  omega

/-- Claim C2 witness: the one-record page `pageFullRow` parses completely
(`A` = 42, `B` = "Hi", one emitted row, zero drops), and the theorem gives
both columns length 1. -/
theorem c2_equal_lengths_witness :
    colLen [("A", [Value.vNum 42]), ("B", [Value.vStr "Hi"])] "A" = 1 ∧
    colLen [("A", [Value.vNum 42]), ("B", [Value.vStr "Hi"])] "B" = 1 :=
  ⟨c2_equal_lengths primModel cfgMixed ⟨[], [pageFullRow]⟩
      [("A", [Value.vNum 42]), ("B", [Value.vStr "Hi"])] 1 (by decide) (by decide)
      (0, colIntA) (by decide),
   c2_equal_lengths primModel cfgMixed ⟨[], [pageFullRow]⟩
      [("A", [Value.vNum 42]), ("B", [Value.vStr "Hi"])] 1 (by decide) (by decide)
      (1, colTextB) (by decide)⟩

/-- Claim C5 as amended: on Jet 3, when the parsed variable-length field
count differs from `tableHeader.variableColumns`, the decoder searches the
reversed record for the first occurrence of the LOW byte of the 2-byte
little-endian encoding of `variableColumns` (not the 2-byte sequence); it
re-parses from the found index whenever that index is not 1 and is below
10 — including the not-found index -1, which re-parses from the final byte
and throws on failure — and it drops the row (with a warning, emitting no
variable-length values) exactly when the index is 1 or at least 10. -/
theorem c5_heuristic (P : RelPrim) (rr orig : List Nat) (nl vc : Nat) (md0 : RelMeta)
    (h1 : P (rr.drop nl) (some (jumpCntOf orig)) 3 = some md0)
    (h2 : md0.variableLengthFieldCount ≠ vc) :
    parseDynamicLengthRecordsMetadata P 3 rr orig nl vc =
      retrySearch P (rr.drop nl) (jumpCntOf orig) vc 3 ∧
    (indexOfZ (rr.drop nl) (vc % 256) = 1 ∨ 10 ≤ indexOfZ (rr.drop nl) (vc % 256) →
      parseDynamicLengthRecordsMetadata P 3 rr orig nl vc = .ok none) := by
  have hmain : parseDynamicLengthRecordsMetadata P 3 rr orig nl vc =
      retrySearch P (rr.drop nl) (jumpCntOf orig) vc 3 := by
    simp only [parseDynamicLengthRecordsMetadata, withEnd]
    rw [if_neg (by omega)]
    simp only [h1]
    rw [if_pos h2]
  refine ⟨hmain, fun hms => ?_⟩
  rw [hmain]
  simp only [retrySearch]
  rw [if_neg ?_]
  intro hcond
  rcases hms with hms | hms
  · exact hcond.1 hms
  · omega

/-- Claim C5 witness: on the concrete mismatching record of the
counterexample, the hypotheses of the amended theorem hold and the
metadata parse equals the retry heuristic. -/
theorem c5_heuristic_witness :
    parseDynamicLengthRecordsMetadata primModel 3 [9, 2, 1, 0, 7, 9, 3]
        [0, 0, 0, 0, 0, 0, 0] 1 1 =
      retrySearch primModel ([9, 2, 1, 0, 7, 9, 3].drop 1) (jumpCntOf [0, 0, 0, 0, 0, 0, 0]) 1 3 :=
  (c5_heuristic primModel [9, 2, 1, 0, 7, 9, 3] [0, 0, 0, 0, 0, 0, 0] 1 1
    ⟨2, [1, 0], [], 7, 4⟩ (by decide) (by decide)).1

/-- Helper: `addLinked` only rewrites the value at an existing key, so a
key absent before stays absent. -/
theorem alookup_addLinked_none {l : List (Nat × TableObject)} {o : Nat} {p : List Nat}
    {a : Nat} (h : alookup l a = none) : alookup (addLinked l o p) a = none := by
  induction l with
  | nil => rfl
  | cons hd tl ih =>
    obtain ⟨k, t⟩ := hd
    simp only [addLinked]
    by_cases hk : k = o
    · rw [if_pos hk]
      simp only [alookup] at h ⊢
      by_cases ha : k = a
      · simp [ha] at h
      · rw [if_neg ha] at h ⊢; exact h
    · rw [if_neg hk]
      simp only [alookup] at h ⊢
      by_cases ha : k = a
      · simp [ha] at h
      · rw [if_neg ha] at h ⊢; exact ih h

/-- Helper: appending a fresh key other than the looked-up one keeps the
lookup empty. -/
theorem alookup_append_single_none {α β : Type} [DecidableEq α] {l : List (α × β)} {k a : α}
    (h1 : alookup l a = none) (h2 : k ≠ a) (v : β) : alookup (l ++ [(k, v)]) a = none := by
  induction l with
  | nil => simp [alookup, h2]
  | cons hd tl ih =>
    obtain ⟨k2, v2⟩ := hd
    simp only [List.cons_append, alookup] at h1 ⊢
    by_cases hk : k2 = a
    · simp [hk] at h1
    · rw [if_neg hk] at h1 ⊢; exact ih h1

/-- Helper: the `linkTablesToData` fold creates no entry at an offset no
data page's owner points to. -/
theorem linkFold_none (tds : List (Nat × List Nat)) (ps off : Nat) :
    ∀ (dps : List (Nat × List Nat)) (acc : List (Nat × TableObject)),
      alookup acc off = none →
      (∀ pg ∈ dps, ∀ hh, parseDataPageHeader pg.2 = some hh → hh.owner * ps ≠ off) →
      alookup (dps.foldl (linkStep tds ps) acc) off = none := by
  intro dps
  induction dps with
  | nil => intro acc h1 _; simpa using h1
  | cons pg rest ih =>
    intro acc h1 h2
    simp only [List.foldl_cons]
    refine ih _ ?_ (fun pg2 hm => h2 pg2 (List.mem_cons_of_mem _ hm))
    unfold linkStep
    cases hph : parseDataPageHeader pg.2 with
    | none => exact h1
    | some hh =>
      have hne : hh.owner * ps ≠ off := h2 pg (List.mem_cons_self _ _) hh hph
      show alookup (linkOwner tds ps acc pg hh) off = none
      unfold linkOwner
      cases hlk : alookup tds (hh.owner * ps) with
      | none => exact h1
      | some tdv =>
        show alookup (addLinked
          (if (alookup acc (hh.owner * ps)).isNone then
            acc ++ [(hh.owner * ps, ⟨tdv, []⟩)] else acc) (hh.owner * ps) pg.2) off = none
        apply alookup_addLinked_none
        split
        · exact alookup_append_single_none h1 hne _
        · exact h1

/-- Helper: `linkTablesToData` has no entry at an offset no data page's
owner points to. -/
theorem linkTablesToData_none (tds dps : List (Nat × List Nat)) (ps off : Nat)
    (h : ∀ pg ∈ dps, ∀ hh, parseDataPageHeader pg.2 = some hh → hh.owner * ps ≠ off) :
    alookup (linkTablesToData tds dps ps) off = none :=
  linkFold_none tds ps off dps [] rfl h

/-- Claim C6: `parseTable` fails with the UnknownTable error for every
name absent from the catalog, and fails with the EmptyTable error for
every catalogued name whose TDEF page exists but to which no data page's
owner field points. -/
theorem c6_parse_table_errors (s : ParserState) (tableName : String) :
    (alookup s.catalog tableName = none →
      parseTableLookup s tableName = .error .unknownTable) ∧
    (∀ id, alookup s.catalog tableName = some id →
      (alookup s.tableDefs (id * s.pageSize)).isSome →
      (∀ pg ∈ s.dataPages, ∀ hh, parseDataPageHeader pg.2 = some hh →
        hh.owner * s.pageSize ≠ id * s.pageSize) →
      parseTableLookup s tableName = .error .emptyTable) := by
  constructor
  · intro hc
    simp [parseTableLookup, hc]
  · intro id hc htd hnone
    have hlink := linkTablesToData_none s.tableDefs s.dataPages s.pageSize (id * s.pageSize) hnone
    obtain ⟨td, htd2⟩ := Option.isSome_iff_exists.mp htd
    simp [parseTableLookup, hc, hlink, htd2]

/-- Claim C6 witness: on a state with catalog entry `T` at page 1, a TDEF
page at offset 2048 and no data pages, an unknown name errors with
UnknownTable and `T` errors with EmptyTable. -/
theorem c6_parse_table_errors_witness :
    parseTableLookup stateTdefOnly "Missing" = .error .unknownTable ∧
    parseTableLookup stateTdefOnly "T" = .error .emptyTable :=
  ⟨(c6_parse_table_errors stateTdefOnly "Missing").1 (by decide),
   (c6_parse_table_errors stateTdefOnly "T").2 1 (by decide) (by decide)
     (by intro pg hm; exact absurd hm (List.not_mem_nil pg))⟩

/-- Claim C7 as amended: the overflow resolver computes page = ptr >> 8
and slot = ptr & 0xFF and returns a carved byte range or not-found —
without throwing — PROVIDED the target page's header parses; an absent
page is not-found, but a present page whose header fails to parse makes
the call throw (see the counterexample). -/
theorem c7_overflow_no_throw (dataPages : List (Nat × List Nat)) (pageSize ptr : Nat)
    (h : ∀ pg, alookup dataPages (ptr / 256 * pageSize) = some pg →
      (parseDataPageHeader pg).isSome) :
    getOverflowRecord dataPages pageSize ptr = .notFound ∨
      ∃ bs, getOverflowRecord dataPages pageSize ptr = .found bs := by
  cases hlk : alookup dataPages (ptr / 256 * pageSize) with
  | none => left; simp [getOverflowRecord, hlk]
  | some pg =>
    obtain ⟨hdr, hph⟩ := Option.isSome_iff_exists.mp (h pg hlk)
    by_cases ho : ptr % 256 > hdr.recordOffsets.length
    · left; simp [getOverflowRecord, hlk, hph, ho]
    · by_cases hz : ptr % 256 = 0
      · refine Or.inr ?_
        simp only [getOverflowRecord, hlk, hph]
        rw [if_neg ho, if_pos hz]
        exact ⟨_, rfl⟩
      · refine Or.inr ?_
        simp only [getOverflowRecord, hlk, hph]
        rw [if_neg ho, if_neg hz]
        exact ⟨_, rfl⟩

/-- Claim C7 witness: a present page with a parseable header resolves
without throwing. -/
theorem c7_overflow_no_throw_witness :
    getOverflowRecord [(2048, [1, 1, 0, 0])] 2048 256 = .notFound ∨
      ∃ bs, getOverflowRecord [(2048, [1, 1, 0, 0])] 2048 256 = .found bs :=
  c7_overflow_no_throw [(2048, [1, 1, 0, 0])] 2048 256 (by
    intro pg hpg
    simp [alookup] at hpg
    subst hpg
    decide)

/-- Helper: a pair in `setVal`'s result either carries the written key or
was already present. -/
theorem setVal_mem {l : List (String × Option Value)} {s : String} {w : Option Value}
    {p : String × Option Value} (hp : p ∈ setVal l s w) : p.1 = s ∨ p ∈ l := by
  induction l with
  | nil =>
    simp only [setVal, List.mem_singleton] at hp
    subst hp
    exact Or.inl rfl
  | cons hd tl ih =>
    obtain ⟨m, u⟩ := hd
    simp only [setVal] at hp
    by_cases hm : m = s
    · rw [if_pos hm] at hp
      rcases List.mem_cons.mp hp with rfl | hp2
      · exact Or.inl hm
      · exact Or.inr (List.mem_cons_of_mem _ hp2)
    · rw [if_neg hm] at hp
      rcases List.mem_cons.mp hp with rfl | hp2
      · exact Or.inr (List.mem_cons_self _ _)
      · rcases ih hp2 with h1 | h2
        · exact Or.inl h1
        · exact Or.inr (List.mem_cons_of_mem _ h2)

/-- Helper: a true `isNumEq` pins the cell to that exact number. -/
theorem isNumEq_some {o : Option Value} {r : Rat} (h : isNumEq o r = true) :
    o = some (.vNum r) := by
  match o with
  | none => simp [isNumEq] at h
  | some (.vStr s) => simp [isNumEq] at h
  | some .vNull => simp [isNumEq] at h
  | some (.vNum q) =>
    simp only [isNumEq, beq_iff_eq] at h
    rw [h]

/-- Helper: when every catalog name is a string, each pair the filter loop
emits comes from an aligned entry with Type 1 and Flags 0. -/
theorem catalogEntries_mem (types flags ids names : List Value) :
    ∀ (rest : List Value) (i : Nat) (acc : List (String × Option Value)),
      rest = names.drop i →
      (∀ v ∈ names, ∃ str, v = Value.vStr str) →
      (∀ p ∈ acc, ∃ j, names.get? j = some (.vStr p.1) ∧ types.get? j = some (.vNum 1) ∧
        flags.get? j = some (.vNum 0)) →
      ∀ p ∈ parseCatalogEntries types flags ids rest i acc,
        ∃ j, names.get? j = some (.vStr p.1) ∧ types.get? j = some (.vNum 1) ∧
          flags.get? j = some (.vNum 0) := by
  intro rest
  induction rest with
  | nil =>
    intro i acc _ _ hacc p hp
    exact hacc p hp
  | cons v rest2 ih =>
    intro i acc hdrop hall hacc p hp
    have hvi : names.get? i = some v := by
      have h0 : (names.drop i).get? 0 = some v := by rw [← hdrop]; rfl
      rwa [List.get?_drop, Nat.add_zero] at h0
    have hrest2 : rest2 = names.drop (i + 1) := by
      have h1 : names.drop (i + 1) = (names.drop i).drop 1 := by
        rw [List.drop_drop, Nat.add_comm]
      rw [h1, ← hdrop]
      rfl
    obtain ⟨str, rfl⟩ := hall v (List.get?_mem hvi)
    simp only [parseCatalogEntries] at hp
    by_cases hkeep : (isNumEq (types.get? i) 1 && !isSysFlag (flags.get? i) &&
        isNumEq (flags.get? i) 0) = true
    · rw [if_pos hkeep] at hp
      refine ih (i + 1) _ hrest2 hall ?_ p hp
      intro q hq
      rcases setVal_mem hq with hq1 | hq2
      · simp only [Bool.and_eq_true] at hkeep
        obtain ⟨⟨hA, _⟩, hC⟩ := hkeep
        exact ⟨i, by rw [hq1]; exact hvi, isNumEq_some hA, isNumEq_some hC⟩
      · exact hacc q hq2
    · rw [if_neg hkeep] at hp
      exact ih (i + 1) _ hrest2 hall hacc p hp

/-- Claim C8 as amended: the filter pairs each string name with the
Type/Flags/Id at the index that counts only the string-valued names before
it, so when every catalog Name is a string (indices aligned), every listed
name comes from an entry with Type 1 and Flags 0 and hence has no
system-table flag set. (With a non-string Name present the indices skew
and a listed name's own entry can carry a system flag, see the
counterexample.) -/
theorem c8_catalog_filter (names types flags ids : List Value)
    (hall : ∀ v ∈ names, ∃ str, v = Value.vStr str) :
    ∀ nm w, (nm, w) ∈ parseCatalogFilter names types flags ids →
      ∃ j, names.get? j = some (.vStr nm) ∧ types.get? j = some (.vNum 1) ∧
        flags.get? j = some (.vNum 0) ∧ isSysFlag (flags.get? j) = false := by
  intro nm w hmem
  obtain ⟨j, h1, h2, h3⟩ := catalogEntries_mem types flags ids names names 0 []
    (by simp) hall (by intro p hp; exact absurd hp (List.not_mem_nil p)) (nm, w) hmem
  refine ⟨j, h1, h2, h3, ?_⟩
  rw [h3]
  decide

/-- Claim C8 witness: an all-string catalog with one user-table entry
aligns, and the listed name's entry has Type 1, Flags 0 and no system
flag. -/
theorem c8_catalog_filter_witness :
    ∃ j, [Value.vStr "People"].get? j = some (.vStr "People") ∧
      [Value.vNum 1].get? j = some (.vNum 1) ∧
      [Value.vNum 0].get? j = some (.vNum 0) ∧
      isSysFlag ([Value.vNum 0].get? j) = false :=
  c8_catalog_filter [.vStr "People"] [.vNum 1] [.vNum 0] [.vNum 5]
    (by
      intro v hv
      rw [List.mem_singleton] at hv
      exact ⟨"People", hv⟩)
    "People" (some (.vNum 5)) (by decide)

/-- Claim C9: `parseType` has no case for Boolean (1), OLE (11) or Memo
(12), so `parsed` keeps its initial empty-string value for them whatever
the payload; in particular a fixed Boolean column whose null-table entry
is false (the code's non-null branch) is emitted as the empty string, not
as true or false. -/
theorem c9_unhandled_types :
    (∀ (buffer : List Nat) (length? : Option Nat) (version : Nat),
      parseType .Boolean buffer length? version = .ok (.vStr "") ∧
      parseType .OLE buffer length? version = .ok (.vStr "") ∧
      parseType .Memo buffer length? version = .ok (.vStr "")) ∧
    (∀ (cfg : Cfg) (record : List Nat) (c : Column) (nullTable : List Bool) (acc : Acc),
      c.type = .Boolean →
      c.columnID < nullTable.length →
      nullTable.getD c.columnID false = false →
      c.fixedOffset < record.length →
      parseFixedLengthData cfg record c nullTable acc =
        .ok (pushVal acc c.colNameStr (.vStr ""))) := by
  constructor
  · intro buffer length? version
    exact ⟨rfl, rfl, rfl⟩
  · intro cfg record c nullTable acc htype hid hnull hoff
    unfold parseFixedLengthData
    rw [if_neg (by omega), if_neg (by simp only [hnull]; exact Bool.false_ne_true),
      if_neg (by omega), htype]
    rfl

/-- Claim C9 witness: a Boolean payload decodes to the empty string, and a
non-null fixed Boolean column pushes the empty string. -/
theorem c9_unhandled_types_witness :
    parseType .Boolean [7] none 3 = .ok (.vStr "") ∧
    parseFixedLengthData cfgFixedOnly [9] ⟨"Flag", .Boolean, 0, 0, true⟩ [false] [] =
      .ok (pushVal [] "Flag" (.vStr "")) :=
  ⟨(c9_unhandled_types.1 [7] none 3).1,
   c9_unhandled_types.2 cfgFixedOnly [9] ⟨"Flag", .Boolean, 0, 0, true⟩ [false] [] rfl
     (by decide) (by decide) (by decide)⟩

/-- Claim C10: `parseTable` leaves every `AccessParser` field unchanged
(the state component of the state-passing embedding is returned as
received — the call's only mutations target the fresh per-call
`AccessTable` accumulator and fresh column/metadata objects), and a second
call with the same name on the resulting state returns an equal result. -/
theorem c10_frame (P : RelPrim) (GC : GetColumnsPrim) (s : ParserState) (tableName : String) :
    (parseTableS P GC s tableName).2 = s ∧
    (parseTableS P GC ((parseTableS P GC s tableName).2) tableName).1 =
      (parseTableS P GC s tableName).1 := by
  refine ⟨rfl, ?_⟩
  rfl

end AccessDB
